/-
Verification of the disunday session–thread–worktree orchestration and
persistent scheduler against its specification.

The SQLite-backed store is embedded shallowly: each table is a list of rows,
`INSERT OR REPLACE` on a primary-key column is modelled as cons-plus-filter
(delete the conflicting row, insert the new one), `UPDATE ... WHERE` as a map
over rows, and `SELECT ... WHERE x = ?` with `.get` as `List.find?`.
External collaborators (Discord channels, the OpenCode agent server, the
node:crypto AEAD primitives) are modelled at their interface boundary.
-/
import Mathlib

namespace Disunday

/-! ## Thread sessions (table `thread_sessions`, PRIMARY KEY thread_id)

`bindSession` embeds
`INSERT OR REPLACE INTO thread_sessions (thread_id, session_id) VALUES (?, ?)`
(database.ts schema; the statement appears in the resume command and the fork
context-menu handler).  `resolveSession` embeds
`SELECT session_id FROM thread_sessions WHERE thread_id = ?`. -/

def bindSession (db : List (String × String)) (threadId sessionId : String) :
    List (String × String) :=
  (threadId, sessionId) :: db.filter (fun r => r.1 ≠ threadId)

def resolveSession (db : List (String × String)) (threadId : String) :
    Option String :=
  (db.find? (fun r => r.1 = threadId)).map (·.2)

/-! ## Part messages (table `part_messages`, PRIMARY KEY part_id)

`recordFragment` embeds one `stmt.run` of
`INSERT OR REPLACE INTO part_messages (part_id, message_id, thread_id)
VALUES (?, ?, ?)`; `resolveFragment` embeds
`SELECT part_id FROM part_messages WHERE message_id = ?` (fork handler). -/

structure PartMessage where
  part_id : String
  message_id : String
  thread_id : String
deriving DecidableEq, Repr

def recordFragment (db : List PartMessage) (partId messageId threadId : String) :
    List PartMessage :=
  ⟨partId, messageId, threadId⟩ :: db.filter (fun r => r.part_id ≠ partId)

def resolveFragment (db : List PartMessage) (messageId : String) :
    Option String :=
  (db.find? (fun r => r.message_id = messageId)).map (·.part_id)

/-! ## Thread worktrees (table `thread_worktrees`, PRIMARY KEY thread_id)

Rows and the four store operations of database.ts:
* `createPendingWorktree`: `INSERT OR REPLACE ... VALUES (?, ?, ?, 'pending')`
  (unlisted columns take their defaults: `worktree_directory` and
  `error_message` become NULL);
* `setWorktreeReady`: `UPDATE thread_worktrees SET worktree_directory = ?,
  status = 'ready' WHERE thread_id = ?`;
* `setWorktreeError`: `UPDATE thread_worktrees SET status = 'error',
  error_message = ? WHERE thread_id = ?`;
* `deleteThreadWorktree`: `DELETE FROM thread_worktrees WHERE thread_id = ?`. -/

inductive WorktreeStatus where
  | pending
  | ready
  | workErr
deriving DecidableEq, Repr

structure ThreadWorktree where
  thread_id : String
  worktree_name : String
  worktree_directory : Option String
  project_directory : String
  status : WorktreeStatus
  error_message : Option String
deriving DecidableEq, Repr

def createPendingWorktree (db : List ThreadWorktree)
    (threadId worktreeName projectDirectory : String) : List ThreadWorktree :=
  ⟨threadId, worktreeName, none, projectDirectory, .pending, none⟩ ::
    db.filter (fun r => r.thread_id ≠ threadId)

def setWorktreeReady (db : List ThreadWorktree)
    (threadId worktreeDirectory : String) : List ThreadWorktree :=
  db.map (fun r =>
    if r.thread_id = threadId then
      { r with worktree_directory := some worktreeDirectory, status := .ready }
    else r)

def setWorktreeError (db : List ThreadWorktree)
    (threadId errorMessage : String) : List ThreadWorktree :=
  db.map (fun r =>
    if r.thread_id = threadId then
      { r with status := .workErr, error_message := some errorMessage }
    else r)

def deleteThreadWorktree (db : List ThreadWorktree) (threadId : String) :
    List ThreadWorktree :=
  db.filter (fun r => r.thread_id ≠ threadId)

def getThreadWorktree (db : List ThreadWorktree) (threadId : String) :
    Option ThreadWorktree :=
  db.find? (fun r => r.thread_id = threadId)

/-- Status of the row a thread currently has, if any. -/
def worktreeStatusOf (db : List ThreadWorktree) (threadId : String) :
    Option WorktreeStatus :=
  (getThreadWorktree db threadId).map (·.status)

/-- The worktree store operations, as a single step alphabet. -/
inductive WtOp where
  | create (threadId worktreeName projectDirectory : String)
  | ready (threadId worktreeDirectory : String)
  | fail (threadId errorMessage : String)
  | delete (threadId : String)
deriving DecidableEq, Repr

def applyWtOp (db : List ThreadWorktree) : WtOp → List ThreadWorktree
  | .create t n p => createPendingWorktree db t n p
  | .ready t d => setWorktreeReady db t d
  | .fail t m => setWorktreeError db t m
  | .delete t => deleteThreadWorktree db t

/-- The usage discipline of the worktree lifecycle manager: a worktree is
created only for a thread with no row, and the single adapter callback sets
`ready`/`error` only on a row that is still `pending`.  The store operations
themselves do not check these conditions. -/
def wtGuard (db : List ThreadWorktree) : WtOp → Prop
  | .create t _ _ => worktreeStatusOf db t = none
  | .ready t _ => worktreeStatusOf db t = some .pending
  | .fail t _ => worktreeStatusOf db t = some .pending
  | .delete _ => True

def terminalWt (s : Option WorktreeStatus) : Prop :=
  s = some .ready ∨ s = some .workErr

/-! ## Scheduled messages

The schedule table accessors are imported by scheduler.ts and
commands/schedule.ts from database.ts, but their implementations are not part
of the sources at hand; they are modelled from the spec below.  The tick loop
(`processSchedules`), the per-row error handling and the hub notification
(`sendScheduleNotification`) are translated from scheduler.ts, and the cancel
subcommand from commands/schedule.ts. -/

inductive ScheduleStatus where
  | pending
  | completed
  | failed
  | cancelled
deriving DecidableEq, Repr

structure ScheduleRow where
  id : Nat
  channel_id : String
  thread_id : Option String
  prompt : String
  scheduled_at : Nat
  status : ScheduleStatus
  created_by : String
  error_message : Option String
deriving DecidableEq, Repr

/-- Modelled from the spec: the Scheduler's periodic tick "queries the Store
for rows with `status = pending AND scheduledAt <= now`"
(`getPendingSchedules`, imported by scheduler.ts but not among the sources). -/
def getPendingSchedules (db : List ScheduleRow) (now : Nat) : List ScheduleRow :=
  db.filter (fun r => r.status = .pending && r.scheduled_at ≤ now)

/-- Modelled from the spec: "on success, transition `status=completed`; on any
exception, transition `status=failed` with the captured message"
(`updateScheduleStatus(id, status, errorMessage?)`, imported by scheduler.ts
but not among the sources).  A single-row update keyed by `id`. -/
def updateScheduleStatus (db : List ScheduleRow) (id : Nat)
    (status : ScheduleStatus) (errorMessage : Option String) : List ScheduleRow :=
  db.map (fun r =>
    if r.id = id then { r with status := status, error_message := errorMessage }
    else r)

/-- Modelled from the spec: a lookup of one schedule row by its id
(`getScheduleById`, imported by commands/schedule.ts but not among the
sources; used by the cancel subcommand and the listing query). -/
def getScheduleById (db : List ScheduleRow) (id : Nat) : Option ScheduleRow :=
  db.find? (fun r => r.id = id)

/-- Modelled from the spec: "`cancelSchedule(id, requestingUser)` is accepted
only while `status=pending`; it is a synchronous state transition with no side
effects beyond marking the row" (imported by commands/schedule.ts but not
among the sources).  Returns whether a row was cancelled. -/
def cancelSchedule (db : List ScheduleRow) (id : Nat) (_requestingUser : String) :
    List ScheduleRow × Bool :=
  match db.find? (fun r => r.id = id) with
  | some r =>
    if r.status = .pending then
      (db.map (fun s => if s.id = id then { s with status := .cancelled } else s),
       true)
    else (db, false)
  | none => (db, false)

/-- A hub notification as assembled by `sendScheduleNotification`
(scheduler.ts): schedule id, outcome, channel reference, prompt preview and,
on failure, the error message, plus the rendered one-line content. -/
structure HubNotification where
  scheduleId : Nat
  status : ScheduleStatus
  channelId : String
  promptPreview : String
  errorMessage : Option String
  content : String
deriving DecidableEq, Repr

/-- Environment of one scheduler tick: everything scheduler.ts reaches through
external collaborators.  `exec` stands for the body of the per-row
`errore.tryAsync` block (channel fetch, project-directory check, the visible
"executing" message and `handleOpencodeSession`); `appId` for
`client.application?.id`; `hubChannelId` for
`getBotSettings(appId).hub_channel_id` (getBotSettings is imported by
scheduler.ts but not among the sources; modelled from the spec as "one
configured channel reference per application identity"); `hubFetchOk` for a
successful `client.channels.fetch` returning a text-based channel with
`send`. -/
structure SchedulerEnv where
  exec : ScheduleRow → Except String Unit
  appId : Option String
  hubChannelId : String → Option String
  hubFetchOk : String → Bool

/-- Translation of `sendScheduleNotification` (scheduler.ts): returns the
notification actually sent to the hub, or `none` when the function bails out
(no application id, no configured hub channel, or channel fetch failure). -/
def sendScheduleNotification (env : SchedulerEnv) (schedule : ScheduleRow)
    (status : ScheduleStatus) (errorMessage : Option String) :
    Option HubNotification :=
  match env.appId with
  | none => none
  | some appId =>
    match env.hubChannelId appId with
    | none => none
    | some hubId =>
      if env.hubFetchOk hubId then
        let promptPreview :=
          schedule.prompt.take 50 ++ (if schedule.prompt.length > 50 then "..." else "")
        let statusText := if status = .completed then "completed" else "failed"
        let emoji := if status = .completed then "✅" else "❌"
        let content :=
          match errorMessage with
          | some m =>
            emoji ++ " Schedule **#" ++ toString schedule.id ++ "** " ++ statusText ++
              "\n📍 <#" ++ schedule.channel_id ++ ">\n💬 " ++ promptPreview ++
              "\n⚠️ " ++ m
          | none =>
            emoji ++ " Schedule **#" ++ toString schedule.id ++ "** " ++ statusText ++
              "\n📍 <#" ++ schedule.channel_id ++ ">\n💬 " ++ promptPreview
        some ⟨schedule.id, status, schedule.channel_id, promptPreview,
          errorMessage, content⟩
      else none

/-- The `for (const schedule of pendingSchedules)` loop of `processSchedules`
(scheduler.ts): each row's execution result is caught per row; failure records
`status='failed'` with the captured message, success records
`status='completed'`, and either way a hub notification is attempted before
the loop moves on. -/
def schedulerLoop (env : SchedulerEnv) (due : List ScheduleRow)
    (db : List ScheduleRow) (sent : List HubNotification) :
    List ScheduleRow × List HubNotification :=
  match due with
  | [] => (db, sent)
  | r :: rest =>
    match env.exec r with
    | .error m =>
      schedulerLoop env rest (updateScheduleStatus db r.id .failed (some m))
        (sent ++ (sendScheduleNotification env r .failed (some m)).toList)
    | .ok _ =>
      schedulerLoop env rest (updateScheduleStatus db r.id .completed none)
        (sent ++ (sendScheduleNotification env r .completed none).toList)

/-- One scheduler tick (`processSchedules`, scheduler.ts): snapshot the due
rows, then process them in order. -/
def processSchedules (env : SchedulerEnv) (db : List ScheduleRow) (now : Nat) :
    List ScheduleRow × List HubNotification :=
  schedulerLoop env (getPendingSchedules db now) db []

/-- The outcome the tick records for a row, as a function of that row's own
execution result only. -/
def tickOutcome (env : SchedulerEnv) (r : ScheduleRow) : ScheduleRow :=
  { r with
    status := match env.exec r with | .ok _ => .completed | .error _ => .failed
    error_message := match env.exec r with | .ok _ => none | .error m => some m }

/-- Concrete fixtures used to evaluate the scheduler theorems. -/
def sampleRow : ScheduleRow := ⟨1, "c", none, "run tests", 0, .pending, "u", none⟩

def sampleRow2 : ScheduleRow := ⟨2, "c", none, "second", 0, .pending, "u", none⟩

def sampleEnv : SchedulerEnv :=
  ⟨fun _ => .ok (), some "app", fun _ => some "hub", fun _ => true⟩

def sampleMixedEnv : SchedulerEnv :=
  ⟨fun r => if r.id = 1 then .error "boom" else .ok (), some "app",
    fun _ => some "hub", fun _ => true⟩

/-- Replies of the `/schedule cancel` subcommand (commands/schedule.ts). -/
inductive CancelReply where
  | notFound
  | alreadyResolved (status : ScheduleStatus)
  | cancelled
  | cancelFailed
deriving DecidableEq, Repr

/-- Translation of the `cancel` case of `handleScheduleCommand`
(commands/schedule.ts lines 178-212): look the row up; a missing row or a row
whose status is not `pending` is reported back without touching the store;
otherwise `cancelSchedule` runs and its outcome is reported. -/
def handleScheduleCancel (db : List ScheduleRow) (id : Nat) (user : String) :
    List ScheduleRow × CancelReply :=
  match getScheduleById db id with
  | none => (db, .notFound)
  | some schedule =>
    if schedule.status ≠ .pending then (db, .alreadyResolved schedule.status)
    else
      let (db2, ok) := cancelSchedule db id user
      if ok then (db2, .cancelled) else (db2, .cancelFailed)

/-! ## Fork context menu

Translation of `handleForkContextMenu` (the fork context-menu handler):
a cascade of early returns, then — only after `session.fork` has returned
data and the parent channel resolved — the new thread is created and bound.
External collaborators are supplied through `ForkEnv`. -/

/-- The session object returned by `getClient().session.fork` when it
carries data. -/
structure ForkedSession where
  id : String
  title : Option String
deriving DecidableEq, Repr

/-- Environment of one fork interaction.  `channelPresent` and
`channelIsThread` stand for the `interaction.channel` checks; `threadId` and
`targetMessageId` for `thread.id` and `interaction.targetMessage.id`;
`projectDirectory` for `getKimakiMetadata(await resolveTextChannel(thread))`;
`clientInit` for `initializeOpencodeForDirectory`; `forkOutcome` for the
`errore.tryAsync`-wrapped `session.fork` call (`.ok none` is a response
without data); `parentChannelPresent` for the second `resolveTextChannel`;
`newThreadId` for the id Discord assigns in `threads.create`. -/
structure ForkEnv where
  channelPresent : Bool
  channelIsThread : Bool
  threadId : String
  targetMessageId : String
  projectDirectory : Option String
  clientInit : Except String Unit
  forkOutcome : Except String (Option ForkedSession)
  parentChannelPresent : Bool
  newThreadId : String

inductive ForkReply where
  | noChannel
  | notThread
  | noProjectDirectory
  | noSession
  | fragmentNotFound
  | clientInitFailed (message : String)
  | forkFailed (message : String)
  | noForkData
  | noParentChannel
  | forked (threadId : String)
deriving DecidableEq, Repr

/-- Result of one fork interaction: the thread-session table afterwards, the
threads created on the chat platform during the interaction, and the reply
shown to the user. -/
structure ForkResult where
  threadSessions : List (String × String)
  createdThreads : List String
  reply : ForkReply
deriving DecidableEq, Repr

def handleForkContextMenu (env : ForkEnv) (sessions : List (String × String))
    (parts : List PartMessage) : ForkResult :=
  if ¬env.channelPresent then ⟨sessions, [], .noChannel⟩
  else if ¬env.channelIsThread then ⟨sessions, [], .notThread⟩
  else
    match env.projectDirectory with
    | none => ⟨sessions, [], .noProjectDirectory⟩
    | some _ =>
      match resolveSession sessions env.threadId with
      | none => ⟨sessions, [], .noSession⟩
      | some _ =>
        match resolveFragment parts env.targetMessageId with
        | none => ⟨sessions, [], .fragmentNotFound⟩
        | some _ =>
          match env.clientInit with
          | .error m => ⟨sessions, [], .clientInitFailed m⟩
          | .ok _ =>
            match env.forkOutcome with
            | .error m => ⟨sessions, [], .forkFailed m⟩
            | .ok none => ⟨sessions, [], .noForkData⟩
            | .ok (some forkedSession) =>
              if ¬env.parentChannelPresent then ⟨sessions, [], .noParentChannel⟩
              else
                ⟨bindSession sessions env.newThreadId forkedSession.id,
                 [env.newThreadId], .forked env.newThreadId⟩

/-- Concrete fixture used to evaluate the fork theorem: a valid thread with a
bound session whose agent-server fork call would fail. -/
def sampleForkEnv : ForkEnv :=
  ⟨true, true, "th", "msg", some "dir", .ok (), .error "no agent", true, "newth"⟩

/-! ## Credential vault (security.ts)

Strings handled by the vault are modelled as `List Char` and byte buffers as
`List Nat` so that the serialization format can be reasoned about
character by character.

The node:crypto AES-256-GCM primitives are external; they are idealized as an
authenticated stream cipher over `List Nat`: the ciphertext is the plaintext
XORed with a key/iv-derived keystream, and the auth tag is an injective
fingerprint of (key, iv, ciphertext), so that authentication succeeds exactly
when key, iv and ciphertext all match.  `Buffer.toString('base64')` /
`Buffer.from(_, 'base64')` are idealized as an injective byte↔text codec whose
output uses only characters of the base64 alphabet (six alphabet characters
per byte value), which is what `isEncrypted`'s structural check and the
colon-separated serialization format depend on.

`encrypt`/`decrypt`/`serializeEncrypted`/`deserializeEncrypted`/`isEncrypted`
themselves are translated from security.ts; `crypto.randomBytes(IV_LENGTH)`
inside `encrypt` is supplied as an explicit `ivBytes` argument. -/

/-- Sixteen characters of the base64 alphabet, used as digits by the
idealized byte↔text codec. -/
def b64Alphabet : List Char :=
  ['A', 'B', 'C', 'D', 'E', 'F', 'G', 'H', 'I', 'J', 'K', 'L', 'M', 'N', 'O', 'P']

def b64Digit (n : Nat) : Char := b64Alphabet.getD (n % 16) 'A'

def b64DigitVal (c : Char) : Nat := b64Alphabet.indexOf c

/-- Idealized base64 encoding of one byte value: six little-endian base-16
digits drawn from the base64 alphabet (covers values below 16^6). -/
def encEntry (b : Nat) : List Char :=
  [b64Digit b, b64Digit (b / 16), b64Digit (b / 256), b64Digit (b / 4096),
   b64Digit (b / 65536), b64Digit (b / 1048576)]

def decEntry (c0 c1 c2 c3 c4 c5 : Char) : Nat :=
  b64DigitVal c0 + 16 * b64DigitVal c1 + 256 * b64DigitVal c2 +
    4096 * b64DigitVal c3 + 65536 * b64DigitVal c4 + 1048576 * b64DigitVal c5

/-- Idealized `buffer.toString('base64')`. -/
def encBytes : List Nat → List Char
  | [] => []
  | b :: rest => encEntry b ++ encBytes rest

/-- Idealized `Buffer.from(text, 'base64')`; like the real decoder it is
total, silently dropping a malformed tail. -/
def decBytes : List Char → List Nat
  | c0 :: c1 :: c2 :: c3 :: c4 :: c5 :: rest =>
    decEntry c0 c1 c2 c3 c4 c5 :: decBytes rest
  | _ => []

/-- `Buffer.from(plaintext, 'utf8')`, idealized as the scalar values. -/
def toBytes (s : List Char) : List Nat := s.map Char.toNat

/-- `buffer.toString('utf8')` on decrypted output. -/
def fromBytes (bs : List Nat) : List Char := bs.map Char.ofNat

/-- Keystream of the idealized cipher, bounded below 2^21 so that cipher
output stays within the range of the byte↔text codec. -/
def keystreamAt (key iv : List Nat) (i : Nat) : Nat :=
  (key.sum + 31 * iv.sum + 17 * i) % 2097152

def xorStream (key iv : List Nat) : Nat → List Nat → List Nat
  | _, [] => []
  | i, b :: rest => (b ^^^ keystreamAt key iv i) :: xorStream key iv (i + 1) rest

/-- Idealized AES-256-GCM keystream application (its own inverse). -/
def gcmCipher (key iv : List Nat) (bs : List Nat) : List Nat :=
  xorStream key iv 0 bs

/-- Idealized GCM authentication tag: a zero-separated fingerprint of key, iv
and ciphertext (the shifts make the separators unambiguous). -/
def gcmTag (key iv ct : List Nat) : List Nat :=
  key.map (· + 1) ++ (0 :: (iv.map (· + 1) ++ (0 :: ct)))

/-- The `EncryptedData` record of security.ts: iv, auth tag and ciphertext,
each in serialized text form. -/
structure EncryptedData where
  iv : List Char
  authTag : List Char
  encrypted : List Char
deriving DecidableEq, Repr

structure DecryptionError where
  reason : String
deriving DecidableEq, Repr

/-- Translation of `encrypt` (security.ts): fresh iv (here the `ivBytes`
argument), keystream over the utf8 bytes, tag from the cipher state, all
fields base64-serialized. -/
def encrypt (ivBytes : List Nat) (plaintext : List Char) (key : List Nat) :
    EncryptedData :=
  let ct := gcmCipher key ivBytes (toBytes plaintext)
  { iv := encBytes ivBytes
    authTag := encBytes (gcmTag key ivBytes ct)
    encrypted := encBytes ct }

/-- Translation of `decrypt` (security.ts): decode the three fields, run the
authenticated decipher; any authentication failure surfaces as a
`DecryptionError`. -/
def decrypt (data : EncryptedData) (key : List Nat) :
    Except DecryptionError (List Char) :=
  let iv := decBytes data.iv
  let authTag := decBytes data.authTag
  let ct := decBytes data.encrypted
  if authTag = gcmTag key iv ct then .ok (fromBytes (gcmCipher key iv ct))
  else .error ⟨"Unsupported state or unable to authenticate data"⟩

/-- Translation of `serializeEncrypted` (security.ts): `iv:authTag:encrypted`. -/
def serializeEncrypted (data : EncryptedData) : List Char :=
  data.iv ++ (':' :: (data.authTag ++ (':' :: data.encrypted)))

/-- JavaScript `string.split(':')` on a character list. -/
def splitOnColon : List Char → List (List Char)
  | [] => [[]]
  | c :: rest =>
    if c = ':' then [] :: splitOnColon rest
    else
      match splitOnColon rest with
      | [] => [[c]]
      | h :: t => (c :: h) :: t

/-- Translation of `deserializeEncrypted` (security.ts): split on `:`; three
parts required and every part non-empty, else `null`. -/
def deserializeEncrypted (serialized : List Char) : Option EncryptedData :=
  match splitOnColon serialized with
  | [iv, authTag, encrypted] =>
    if iv = [] ∨ authTag = [] ∨ encrypted = [] then none
    else some ⟨iv, authTag, encrypted⟩
  | _ => none

/-- The character class of `/^[A-Za-z0-9+\/]+=*$/` (security.ts). -/
def isB64Char (c : Char) : Bool :=
  ('A' ≤ c && c ≤ 'Z') || ('a' ≤ c && c ≤ 'z') || ('0' ≤ c && c ≤ '9') ||
    c = '+' || c = '/'

/-- The regex test of `isEncrypted`: a non-empty run of base64 characters
followed only by `=` padding. -/
def matchesB64Regex (s : List Char) : Bool :=
  decide (s.takeWhile isB64Char ≠ []) && (s.dropWhile isB64Char).all (· = '=')

/-- Translation of `isEncrypted` (security.ts): non-empty, contains `:`,
splits into exactly three parts, each non-empty and matching the base64
pattern. -/
def isEncrypted (value : List Char) : Bool :=
  if value = [] ∨ ':' ∉ value then false
  else
    let parts := splitOnColon value
    parts.length == 3 &&
      parts.all (fun part => decide (part ≠ []) && matchesB64Regex part)

/-! ## Credential accessors (database.ts)

`getBotToken` performs read-repair of legacy plaintext: a stored value that
fails `isEncrypted` is returned as-is while its encryption is persisted with
an `UPDATE`.  `getBotApiKeys` returns a legacy plaintext value as-is but
performs no store write (its comment defers migration to the next
`setBotApiKeys` call). -/

def getBotToken (key ivFresh : List Nat) (tokens : List (String × List Char))
    (appId : String) : Option (List Char) × List (String × List Char) :=
  match tokens.find? (fun r => r.1 = appId) with
  | none => (none, tokens)
  | some row =>
    if row.2 = [] then (none, tokens)
    else if ¬isEncrypted row.2 then
      let serialized := serializeEncrypted (encrypt ivFresh row.2 key)
      (some row.2,
       tokens.map (fun r => if r.1 = appId then (r.1, serialized) else r))
    else
      match deserializeEncrypted row.2 with
      | none => (none, tokens)
      | some data =>
        match decrypt data key with
        | .ok plaintext => (some plaintext, tokens)
        | .error _ => (none, tokens)

structure BotApiKeysRow where
  app_id : String
  gemini_api_key : Option (List Char)
  xai_api_key : Option (List Char)
deriving DecidableEq, Repr

/-- The inner `decryptValue` closure of `getBotApiKeys` (database.ts): a NULL
or empty value yields nothing; a value failing the structural check is
returned as legacy plaintext (migration deferred); otherwise deserialize and
decrypt, swallowing failures to `none`. -/
def decryptValue (key : List Nat) : Option (List Char) → Option (List Char)
  | none => none
  | some v =>
    if v = [] then none
    else if ¬isEncrypted v then some v
    else
      match deserializeEncrypted v with
      | none => none
      | some data =>
        match decrypt data key with
        | .ok p => some p
        | .error _ => none

/-- Translation of `getBotApiKeys` (database.ts).  The row list is returned
unchanged: the source performs no UPDATE on this read path. -/
def getBotApiKeys (key : List Nat) (rows : List BotApiKeysRow) (appId : String) :
    Option (Option (List Char) × Option (List Char)) × List BotApiKeysRow :=
  match rows.find? (fun r => r.app_id = appId) with
  | none => (none, rows)
  | some row =>
    (some (decryptValue key row.gemini_api_key, decryptValue key row.xai_api_key),
     rows)

/-! ## Helper lemmas: the idealized byte↔text codec -/

theorem b64DigitVal_b64Digit (n : Nat) : b64DigitVal (b64Digit n) = n % 16 := by
  have h : n % 16 < 16 := Nat.mod_lt _ (by decide)
  unfold b64Digit
  set m := n % 16 with hm
  interval_cases m <;> rfl

theorem decEntry_encEntry (b : Nat) (hb : b < 16777216) :
    decEntry (b64Digit b) (b64Digit (b / 16)) (b64Digit (b / 256))
      (b64Digit (b / 4096)) (b64Digit (b / 65536)) (b64Digit (b / 1048576)) = b := by
  simp only [decEntry, b64DigitVal_b64Digit]
  have e1 : b / 16 / 16 = b / 256 := by omega
  have e2 : b / 256 / 16 = b / 4096 := by omega
  have e3 : b / 4096 / 16 = b / 65536 := by omega
  have e4 : b / 65536 / 16 = b / 1048576 := by omega
  omega

theorem decBytes_encBytes (bs : List Nat) (hb : ∀ b ∈ bs, b < 16777216) :
    decBytes (encBytes bs) = bs := by
  induction bs with
  | nil => rfl
  | cons b rest ih =>
    have hb0 : b < 16777216 := hb b (by simp)
    have hrest : ∀ x ∈ rest, x < 16777216 := fun x hx => hb x (by simp [hx])
    show decBytes (encEntry b ++ encBytes rest) = b :: rest
    simp only [encEntry, List.cons_append, List.nil_append, decBytes,
      List.append_eq]
    rw [ih hrest, decEntry_encEntry b hb0]

theorem b64Digit_mem_alphabet (n : Nat) : b64Digit n ∈ b64Alphabet := by
  have h : n % 16 < 16 := Nat.mod_lt _ (by decide)
  unfold b64Digit
  set m := n % 16 with hm
  interval_cases m <;> decide

theorem alphabet_char_props {c : Char} (hc : c ∈ b64Alphabet) :
    isB64Char c = true ∧ c ≠ ':' ∧ c ≠ '=' := by
  fin_cases hc <;> exact ⟨by decide, by decide, by decide⟩

theorem encEntry_chars {c : Char} {b : Nat} (hc : c ∈ encEntry b) :
    c ∈ b64Alphabet := by
  simp only [encEntry, List.mem_cons, List.not_mem_nil, or_false] at hc
  rcases hc with h | h | h | h | h | h <;> exact h ▸ b64Digit_mem_alphabet _

theorem encBytes_chars {c : Char} {bs : List Nat} (hc : c ∈ encBytes bs) :
    c ∈ b64Alphabet := by
  induction bs with
  | nil => simp [encBytes] at hc
  | cons b rest ih =>
    simp only [encBytes, List.mem_append] at hc
    rcases hc with h | h
    · exact encEntry_chars h
    · exact ih h

theorem encBytes_no_colon {bs : List Nat} {c : Char} (hc : c ∈ encBytes bs) :
    c ≠ ':' :=
  (alphabet_char_props (encBytes_chars hc)).2.1

theorem encBytes_ne_nil {bs : List Nat} (h : bs ≠ []) : encBytes bs ≠ [] := by
  cases bs with
  | nil => exact absurd rfl h
  | cons b rest => simp [encBytes, encEntry]

theorem gcmTag_ne_nil (key iv ct : List Nat) : gcmTag key iv ct ≠ [] := by
  cases key <;> simp [gcmTag]

/-! ## Helper lemmas: splitting on colons -/

theorem splitOnColon_no_colon {xs : List Char} (h : ∀ c ∈ xs, c ≠ ':') :
    splitOnColon xs = [xs] := by
  induction xs with
  | nil => rfl
  | cons c rest ih =>
    have hc : c ≠ ':' := h c (by simp)
    have hrest : ∀ x ∈ rest, x ≠ ':' := fun x hx => h x (by simp [hx])
    simp only [splitOnColon, if_neg hc, ih hrest]

theorem splitOnColon_append {xs ys : List Char} (h : ∀ c ∈ xs, c ≠ ':') :
    splitOnColon (xs ++ ':' :: ys) = xs :: splitOnColon ys := by
  induction xs with
  | nil => simp [splitOnColon]
  | cons c rest ih =>
    have hc : c ≠ ':' := h c (by simp)
    have hrest : ∀ x ∈ rest, x ≠ ':' := fun x hx => h x (by simp [hx])
    simp only [List.cons_append, splitOnColon, if_neg hc, ih hrest]
    cases hs : splitOnColon (rest ++ ':' :: ys) with
    | nil => rw [ih hrest] at hs; exact absurd hs (by simp)
    | cons hh tt => rw [ih hrest] at hs; rw [← hs]

theorem matchesB64Regex_of_b64 {p : List Char} (hne : p ≠ [])
    (hall : ∀ c ∈ p, isB64Char c = true) : matchesB64Regex p = true := by
  have htake : p.takeWhile isB64Char = p := List.takeWhile_eq_self_iff.mpr hall
  have hdrop : p.dropWhile isB64Char = [] := by
    have := List.takeWhile_append_dropWhile (p := isB64Char) (l := p)
    rw [htake] at this
    have hl := congrArg List.length this
    simp only [List.length_append] at hl
    exact List.eq_nil_of_length_eq_zero (by omega)
  simp [matchesB64Regex, htake, hdrop, hne]

/-! ## Helper lemmas: the idealized cipher and tag -/

theorem xorStream_involutive (key iv : List Nat) (bs : List Nat) (i : Nat) :
    xorStream key iv i (xorStream key iv i bs) = bs := by
  induction bs generalizing i with
  | nil => rfl
  | cons b rest ih =>
    simp only [xorStream, Nat.xor_cancel_right, ih]

theorem keystreamAt_lt (key iv : List Nat) (i : Nat) :
    keystreamAt key iv i < 2097152 :=
  Nat.mod_lt _ (by decide)

theorem xor_lt_2097152 {a b : Nat} (ha : a < 2097152) (hb : b < 2097152) :
    a ^^^ b < 2097152 := by
  have e : (2097152 : Nat) = 2 ^ 21 := by norm_num
  rw [e] at ha hb ⊢
  exact Nat.bitwise_lt ha hb

theorem xorStream_bound {bs : List Nat} (key iv : List Nat) (i : Nat)
    (hb : ∀ b ∈ bs, b < 2097152) :
    ∀ x ∈ xorStream key iv i bs, x < 2097152 := by
  induction bs generalizing i with
  | nil => simp [xorStream]
  | cons b rest ih =>
    intro x hx
    simp only [xorStream, List.mem_cons] at hx
    rcases hx with rfl | hx
    · exact xor_lt_2097152 (hb b (by simp)) (keystreamAt_lt key iv i)
    · exact ih (i + 1) (fun y hy => hb y (by simp [hy])) x hx

theorem toBytes_bound (s : List Char) : ∀ b ∈ toBytes s, b < 2097152 := by
  intro b hb
  simp only [toBytes, List.mem_map] at hb
  obtain ⟨c, _, rfl⟩ := hb
  have hv : c.val.toNat < 0xd800 ∨ (0xdfff < c.val.toNat ∧ c.val.toNat < 0x110000) :=
    c.valid
  simp only [Char.toNat]
  omega

theorem fromBytes_toBytes (s : List Char) : fromBytes (toBytes s) = s := by
  induction s with
  | nil => rfl
  | cons c rest ih =>
    simp only [fromBytes, toBytes, List.map_cons] at ih ⊢
    rw [Char.ofNat_toNat, ih]

theorem gcmCipher_involutive (key iv bs : List Nat) :
    gcmCipher key iv (gcmCipher key iv bs) = bs :=
  xorStream_involutive key iv bs 0

theorem gcmCipher_bound {bs : List Nat} (key iv : List Nat)
    (hb : ∀ b ∈ bs, b < 2097152) :
    ∀ x ∈ gcmCipher key iv bs, x < 2097152 :=
  xorStream_bound key iv 0 hb

theorem gcmTag_bound {key iv ct : List Nat}
    (hk : ∀ b ∈ key, b < 256) (hiv : ∀ b ∈ iv, b < 256)
    (hct : ∀ b ∈ ct, b < 2097152) :
    ∀ x ∈ gcmTag key iv ct, x < 16777216 := by
  intro x hx
  simp only [gcmTag] at hx
  rcases List.mem_append.mp hx with h | h
  · obtain ⟨a, ha, rfl⟩ := List.mem_map.mp h
    have := hk a ha; omega
  · rcases List.mem_cons.mp h with rfl | h
    · omega
    · rcases List.mem_append.mp h with h2 | h2
      · obtain ⟨a, ha, rfl⟩ := List.mem_map.mp h2
        have := hiv a ha; omega
      · rcases List.mem_cons.mp h2 with rfl | h2
        · omega
        · have := hct x h2; omega

theorem map_succ_ne_zero {xs : List Nat} : ∀ x ∈ xs.map (· + 1), x ≠ 0 := by
  intro x hx
  simp only [List.mem_map] at hx
  obtain ⟨b, _, rfl⟩ := hx
  omega

theorem map_succ_inj {xs ys : List Nat} (h : xs.map (· + 1) = ys.map (· + 1)) :
    xs = ys :=
  List.map_injective_iff.mpr (fun a b hab => by omega) h

theorem append_zero_sep_inj {xs ys xt yt : List Nat}
    (hx : ∀ x ∈ xs, x ≠ 0) (hy : ∀ y ∈ ys, y ≠ 0)
    (h : xs ++ 0 :: xt = ys ++ 0 :: yt) : xs = ys ∧ xt = yt := by
  induction xs generalizing ys with
  | nil =>
    cases ys with
    | nil => simpa using h
    | cons y ys' =>
      simp only [List.nil_append, List.cons_append, List.cons.injEq] at h
      exact absurd h.1.symm (hy y (by simp))
  | cons x xs' ih =>
    cases ys with
    | nil =>
      simp only [List.nil_append, List.cons_append, List.cons.injEq] at h
      exact absurd h.1 (hx x (by simp))
    | cons y ys' =>
      simp only [List.cons_append, List.cons.injEq] at h
      obtain ⟨rfl, h2⟩ := h
      obtain ⟨h3, h4⟩ := ih (fun a ha => hx a (by simp [ha]))
        (fun a ha => hy a (by simp [ha])) h2
      exact ⟨by rw [h3], h4⟩

theorem gcmTag_inj {key key' iv iv' ct ct' : List Nat}
    (h : gcmTag key iv ct = gcmTag key' iv' ct') :
    key = key' ∧ iv = iv' ∧ ct = ct' := by
  simp only [gcmTag] at h
  obtain ⟨h1, h2⟩ :=
    @append_zero_sep_inj (key.map (· + 1)) (key'.map (· + 1)) _ _
      map_succ_ne_zero map_succ_ne_zero h
  obtain ⟨h3, h4⟩ :=
    @append_zero_sep_inj (iv.map (· + 1)) (iv'.map (· + 1)) _ _
      map_succ_ne_zero map_succ_ne_zero h2
  exact ⟨map_succ_inj h1, map_succ_inj h3, h4⟩

/-! ## Helper lemmas: the vault round trip -/

theorem gcmCipher_ne_nil {key iv bs : List Nat} (h : bs ≠ []) :
    gcmCipher key iv bs ≠ [] := by
  cases bs with
  | nil => exact absurd rfl h
  | cons b rest => simp [gcmCipher, xorStream]

theorem toBytes_ne_nil {s : List Char} (h : s ≠ []) : toBytes s ≠ [] := by
  cases s with
  | nil => exact absurd rfl h
  | cons c rest => simp [toBytes]

/-- Auxiliary bound juggling: iv bytes, cipher output and tag all fit the
range of the byte↔text codec. -/
theorem encrypt_decodes (s : List Char) (key iv : List Nat)
    (hk : ∀ b ∈ key, b < 256) (hiv : ∀ b ∈ iv, b < 256) :
    decBytes (encBytes iv) = iv ∧
    decBytes (encBytes (gcmCipher key iv (toBytes s))) =
      gcmCipher key iv (toBytes s) ∧
    decBytes (encBytes (gcmTag key iv (gcmCipher key iv (toBytes s)))) =
      gcmTag key iv (gcmCipher key iv (toBytes s)) := by
  have hct : ∀ b ∈ gcmCipher key iv (toBytes s), b < 2097152 :=
    gcmCipher_bound key iv (toBytes_bound s)
  refine ⟨decBytes_encBytes iv ?_, decBytes_encBytes _ ?_, decBytes_encBytes _ ?_⟩
  · exact fun b hb => by have := hiv b hb; omega
  · exact fun b hb => by have := hct b hb; omega
  · exact gcmTag_bound hk hiv hct

/-- The object-level round trip of the vault: decrypting a fresh encryption
with the same key recovers the plaintext (for every plaintext, empty
included). -/
theorem decrypt_encrypt (s : List Char) (key iv : List Nat)
    (hk : ∀ b ∈ key, b < 256) (hiv : ∀ b ∈ iv, b < 256) :
    decrypt (encrypt iv s key) key = Except.ok s := by
  obtain ⟨e1, e2, e3⟩ := encrypt_decodes s key iv hk hiv
  simp only [decrypt, encrypt, e1, e2, e3, if_pos rfl]
  rw [gcmCipher_involutive, fromBytes_toBytes]
  simp

theorem serializeEncrypted_splits (d : EncryptedData)
    (hiv : ∀ c ∈ d.iv, c ≠ ':') (htag : ∀ c ∈ d.authTag, c ≠ ':')
    (hct : ∀ c ∈ d.encrypted, c ≠ ':') :
    splitOnColon (serializeEncrypted d) = [d.iv, d.authTag, d.encrypted] := by
  simp only [serializeEncrypted]
  rw [splitOnColon_append hiv, splitOnColon_append htag,
    splitOnColon_no_colon hct]

theorem colon_mem_serializeEncrypted (d : EncryptedData) :
    ':' ∈ serializeEncrypted d := by
  simp [serializeEncrypted]

/-- Structural well-formedness of a serialized record whose three fields are
non-empty strings over the base64 alphabet: `isEncrypted` accepts it and
`deserializeEncrypted` reconstructs the record. -/
theorem serialized_parts_roundtrip (d : EncryptedData)
    (h1 : d.iv ≠ []) (h2 : d.authTag ≠ []) (h3 : d.encrypted ≠ [])
    (c1 : ∀ c ∈ d.iv, c ∈ b64Alphabet) (c2 : ∀ c ∈ d.authTag, c ∈ b64Alphabet)
    (c3 : ∀ c ∈ d.encrypted, c ∈ b64Alphabet) :
    isEncrypted (serializeEncrypted d) = true ∧
    deserializeEncrypted (serializeEncrypted d) = some d := by
  have hiv : ∀ c ∈ d.iv, c ≠ ':' := fun c hc => (alphabet_char_props (c1 c hc)).2.1
  have htag : ∀ c ∈ d.authTag, c ≠ ':' :=
    fun c hc => (alphabet_char_props (c2 c hc)).2.1
  have hct : ∀ c ∈ d.encrypted, c ≠ ':' :=
    fun c hc => (alphabet_char_props (c3 c hc)).2.1
  have hsplit := serializeEncrypted_splits d hiv htag hct
  have hne : serializeEncrypted d ≠ [] := by
    intro h
    exact absurd (h ▸ colon_mem_serializeEncrypted d) (by simp)
  have hcontains : (serializeEncrypted d).contains ':' = true := by
    simpa using colon_mem_serializeEncrypted d
  have hcond : ¬(serializeEncrypted d = [] ∨ ':' ∉ serializeEncrypted d) := by
    push_neg
    exact ⟨hne, colon_mem_serializeEncrypted d⟩
  constructor
  · simp only [isEncrypted, if_neg hcond, hsplit]
    simp [h1, h2, h3,
      matchesB64Regex_of_b64 h1 (fun c hc => (alphabet_char_props (c1 c hc)).1),
      matchesB64Regex_of_b64 h2 (fun c hc => (alphabet_char_props (c2 c hc)).1),
      matchesB64Regex_of_b64 h3 (fun c hc => (alphabet_char_props (c3 c hc)).1)]
  · simp only [deserializeEncrypted, hsplit]
    simp [h1, h2, h3]

/-- The three serialized fields of a fresh encryption lie in the base64
alphabet, and (for non-empty plaintext and iv) are non-empty. -/
theorem encrypt_parts (s : List Char) (key iv : List Nat)
    (hs : s ≠ []) (hivne : iv ≠ []) :
    (encrypt iv s key).iv ≠ [] ∧ (encrypt iv s key).authTag ≠ [] ∧
    (encrypt iv s key).encrypted ≠ [] ∧
    (∀ c ∈ (encrypt iv s key).iv, c ∈ b64Alphabet) ∧
    (∀ c ∈ (encrypt iv s key).authTag, c ∈ b64Alphabet) ∧
    (∀ c ∈ (encrypt iv s key).encrypted, c ∈ b64Alphabet) := by
  refine ⟨encBytes_ne_nil hivne, encBytes_ne_nil (gcmTag_ne_nil _ _ _),
    encBytes_ne_nil (gcmCipher_ne_nil (toBytes_ne_nil hs)),
    fun c hc => encBytes_chars hc, fun c hc => encBytes_chars hc,
    fun c hc => encBytes_chars hc⟩

/-- Full read-side round trip for a non-empty plaintext: the serialized
encryption is structurally recognized, deserializes to the original record,
and decrypts back to the plaintext. -/
theorem encrypt_serialize_roundtrip (s : List Char) (key iv : List Nat)
    (hk : ∀ b ∈ key, b < 256) (hiv : ∀ b ∈ iv, b < 256)
    (hs : s ≠ []) (hivne : iv ≠ []) :
    isEncrypted (serializeEncrypted (encrypt iv s key)) = true ∧
    deserializeEncrypted (serializeEncrypted (encrypt iv s key)) =
      some (encrypt iv s key) ∧
    decrypt (encrypt iv s key) key = Except.ok s := by
  obtain ⟨h1, h2, h3, c1, c2, c3⟩ := encrypt_parts s key iv hs hivne
  obtain ⟨r1, r2⟩ := serialized_parts_roundtrip _ h1 h2 h3 c1 c2 c3
  exact ⟨r1, r2, decrypt_encrypt s key iv hk hiv⟩

/-! ## Helper lemmas: lookups through filters and row updates -/

theorem find?_filter_compat {α : Type} {p q : α → Bool} (l : List α)
    (h : ∀ a, p a = true → q a = true) : (l.filter q).find? p = l.find? p := by
  induction l with
  | nil => rfl
  | cons a rest ih =>
    simp only [List.filter_cons]
    by_cases hq : q a
    · simp only [if_pos hq, List.find?_cons]
      by_cases hp : p a
      · simp [hp]
      · simp [hp, ih]
    · have hp : ¬p a = true := fun hpa => hq (h a hpa)
      simp only [if_neg hq, ih]
      simp [List.find?_cons, hp]

theorem find?_map_comm {α : Type} {f : α → α} {p : α → Bool} (l : List α)
    (hf : ∀ a, p (f a) = p a) : (l.map f).find? p = (l.find? p).map f := by
  induction l with
  | nil => rfl
  | cons a rest ih =>
    simp only [List.map_cons, List.find?_cons, hf]
    by_cases hp : p a
    · simp [hp]
    · simp [hp, ih]

theorem find?_key_of_mem_nodup {α β : Type} [DecidableEq β] (key : α → β)
    {l : List α} {r : α} (hnd : (l.map key).Nodup) (hr : r ∈ l) :
    l.find? (fun a => key a = key r) = some r := by
  induction l with
  | nil => cases hr
  | cons a rest ih =>
    simp only [List.map_cons, List.nodup_cons] at hnd
    rcases List.mem_cons.mp hr with rfl | hmem
    · simp [List.find?_cons]
    · have hne : key a ≠ key r := fun he =>
        hnd.1 (he ▸ List.mem_map_of_mem key hmem)
      simp only [List.find?_cons]
      simp [hne, ih hnd.2 hmem]

theorem getScheduleById_of_mem_nodup {db : List ScheduleRow} {r : ScheduleRow}
    (hnd : (db.map (fun x => x.id)).Nodup) (hr : r ∈ db) :
    getScheduleById db r.id = some r := by
  show db.find? (fun x => decide (x.id = r.id)) = some r
  exact find?_key_of_mem_nodup (fun x => x.id) hnd hr

/-! ## Helper lemmas: scheduler tick -/

theorem getScheduleById_update (db : List ScheduleRow) (i j : Nat)
    (st : ScheduleStatus) (e : Option String) :
    getScheduleById (updateScheduleStatus db i st e) j =
      (getScheduleById db j).map
        (fun r => if r.id = i then { r with status := st, error_message := e }
          else r) := by
  unfold getScheduleById updateScheduleStatus
  refine find?_map_comm db ?_
  intro a
  by_cases h : a.id = i <;> simp [h]

theorem getScheduleById_update_ne (db : List ScheduleRow) (i j : Nat)
    (st : ScheduleStatus) (e : Option String) (hij : j ≠ i) :
    getScheduleById (updateScheduleStatus db i st e) j = getScheduleById db j := by
  rw [getScheduleById_update]
  cases h : getScheduleById db j with
  | none => rfl
  | some a =>
    have h2 : List.find? (fun x => decide (x.id = j)) db = some a := h
    have hpa := List.find?_some h2
    have haj : a.id = j := by simpa using hpa
    simp [haj, hij]

theorem getScheduleById_update_self (db : List ScheduleRow) (i : Nat)
    (st : ScheduleStatus) (e : Option String) (r : ScheduleRow)
    (h : getScheduleById db i = some r) :
    getScheduleById (updateScheduleStatus db i st e) i =
      some { r with status := st, error_message := e } := by
  rw [getScheduleById_update, h]
  have h2 : List.find? (fun x => decide (x.id = i)) db = some r := h
  have hpr := List.find?_some h2
  have hri : r.id = i := by simpa using hpr
  simp [hri]

theorem updateScheduleStatus_ids (db : List ScheduleRow) (i : Nat)
    (st : ScheduleStatus) (e : Option String) :
    (updateScheduleStatus db i st e).map (·.id) = db.map (·.id) := by
  unfold updateScheduleStatus
  rw [List.map_map]
  refine List.map_congr_left ?_
  intro a _
  by_cases h : a.id = i <;> simp [h]

theorem schedulerLoop_ids (env : SchedulerEnv) (due db : List ScheduleRow)
    (sent : List HubNotification) :
    (schedulerLoop env due db sent).1.map (·.id) = db.map (·.id) := by
  induction due generalizing db sent with
  | nil => rfl
  | cons r rest ih =>
    cases he : env.exec r with
    | error m => simp only [schedulerLoop, he]; rw [ih, updateScheduleStatus_ids]
    | ok u => simp only [schedulerLoop, he]; rw [ih, updateScheduleStatus_ids]

theorem schedulerLoop_not_processed (env : SchedulerEnv)
    (due db : List ScheduleRow) (sent : List HubNotification) (j : Nat)
    (h : ∀ r ∈ due, r.id ≠ j) :
    getScheduleById (schedulerLoop env due db sent).1 j = getScheduleById db j := by
  induction due generalizing db sent with
  | nil => rfl
  | cons r rest ih =>
    have hrj : r.id ≠ j := h r (by simp)
    have hrest : ∀ x ∈ rest, x.id ≠ j := fun x hx => h x (by simp [hx])
    cases he : env.exec r with
    | error m =>
      simp only [schedulerLoop, he]
      rw [ih _ _ hrest, getScheduleById_update_ne _ _ _ _ _ (Ne.symm hrj)]
    | ok u =>
      simp only [schedulerLoop, he]
      rw [ih _ _ hrest, getScheduleById_update_ne _ _ _ _ _ (Ne.symm hrj)]

theorem schedulerLoop_processes (env : SchedulerEnv) (due : List ScheduleRow)
    (r : ScheduleRow) (hnd : (due.map (·.id)).Nodup) (hr : r ∈ due) :
    ∀ db sent, getScheduleById db r.id = some r →
      getScheduleById (schedulerLoop env due db sent).1 r.id =
        some (tickOutcome env r) := by
  induction due with
  | nil => cases hr
  | cons a rest ih =>
    intro db sent hdb
    simp only [List.map_cons, List.nodup_cons] at hnd
    rcases List.mem_cons.mp hr with rfl | hmem
    · have hrest : ∀ x ∈ rest, x.id ≠ r.id := fun x hx he =>
        hnd.1 (he ▸ List.mem_map_of_mem _ hx)
      cases he : env.exec r with
      | error m =>
        simp only [schedulerLoop, he]
        rw [schedulerLoop_not_processed _ _ _ _ _ hrest,
          getScheduleById_update_self _ _ _ _ _ hdb]
        simp [tickOutcome, he]
      | ok u =>
        simp only [schedulerLoop, he]
        rw [schedulerLoop_not_processed _ _ _ _ _ hrest,
          getScheduleById_update_self _ _ _ _ _ hdb]
        simp [tickOutcome, he]
    · have hne : a.id ≠ r.id := fun he => hnd.1 (he ▸ List.mem_map_of_mem _ hmem)
      cases he : env.exec a with
      | error m =>
        simp only [schedulerLoop, he]
        refine ih hnd.2 hmem _ _ ?_
        rw [getScheduleById_update_ne _ _ _ _ _ (Ne.symm hne)]
        exact hdb
      | ok u =>
        simp only [schedulerLoop, he]
        refine ih hnd.2 hmem _ _ ?_
        rw [getScheduleById_update_ne _ _ _ _ _ (Ne.symm hne)]
        exact hdb

theorem sendScheduleNotification_fields {env : SchedulerEnv} {r : ScheduleRow}
    {st : ScheduleStatus} {e : Option String} {n : HubNotification}
    (h : sendScheduleNotification env r st e = some n) :
    n.scheduleId = r.id ∧ n.status = st ∧ n.errorMessage = e := by
  unfold sendScheduleNotification at h
  cases ha : env.appId with
  | none => simp [ha] at h
  | some a =>
    simp only [ha] at h
    cases hh : env.hubChannelId a with
    | none => simp [hh] at h
    | some hubId =>
      simp only [hh] at h
      by_cases hf : env.hubFetchOk hubId = true
      · rw [if_pos hf] at h
        cases e with
        | none =>
          simp only [Option.some.injEq] at h
          rw [← h]
          exact ⟨rfl, rfl, rfl⟩
        | some m =>
          simp only [Option.some.injEq] at h
          rw [← h]
          exact ⟨rfl, rfl, rfl⟩
      · rw [if_neg hf] at h
        cases h

theorem sendScheduleNotification_isSome {env : SchedulerEnv} {r : ScheduleRow}
    {st : ScheduleStatus} {e : Option String} {a hubId : String}
    (ha : env.appId = some a) (hh : env.hubChannelId a = some hubId)
    (hf : env.hubFetchOk hubId = true) :
    (sendScheduleNotification env r st e).isSome = true := by
  cases e <;> simp [sendScheduleNotification, ha, hh, hf]

theorem schedulerLoop_sent_mono (env : SchedulerEnv) (due db : List ScheduleRow)
    (sent : List HubNotification) :
    ∀ n ∈ sent, n ∈ (schedulerLoop env due db sent).2 := by
  induction due generalizing db sent with
  | nil => intro n hn; exact hn
  | cons r rest ih =>
    intro n hn
    cases he : env.exec r with
    | error m =>
      simp only [schedulerLoop, he]
      exact ih _ _ n (by simp [hn])
    | ok u =>
      simp only [schedulerLoop, he]
      exact ih _ _ n (by simp [hn])

theorem schedulerLoop_notif_of_mem (env : SchedulerEnv) (due : List ScheduleRow)
    (r : ScheduleRow) (n : HubNotification) (hr : r ∈ due)
    (hn : sendScheduleNotification env r
        (match env.exec r with | .ok _ => .completed | .error _ => .failed)
        (match env.exec r with | .ok _ => none | .error m => some m) = some n) :
    ∀ db sent, n ∈ (schedulerLoop env due db sent).2 := by
  induction due with
  | nil => cases hr
  | cons a rest ih =>
    intro db sent
    rcases List.mem_cons.mp hr with rfl | hmem
    · cases he : env.exec r with
      | error m =>
        simp only [he] at hn
        simp only [schedulerLoop, he]
        exact schedulerLoop_sent_mono _ _ _ _ n (by simp [hn])
      | ok u =>
        simp only [he] at hn
        simp only [schedulerLoop, he]
        exact schedulerLoop_sent_mono _ _ _ _ n (by simp [hn])
    · cases he : env.exec a with
      | error m =>
        simp only [schedulerLoop, he]
        exact ih hmem _ _
      | ok u =>
        simp only [schedulerLoop, he]
        exact ih hmem _ _

theorem schedulerLoop_notif_ids (env : SchedulerEnv) (due db : List ScheduleRow)
    (sent : List HubNotification) :
    ∀ n ∈ (schedulerLoop env due db sent).2,
      n ∈ sent ∨ ∃ r ∈ due, n.scheduleId = r.id := by
  induction due generalizing db sent with
  | nil => intro n hn; exact Or.inl hn
  | cons r rest ih =>
    intro n hn
    cases he : env.exec r with
    | error m =>
      simp only [schedulerLoop, he] at hn
      rcases ih _ _ n hn with hsent | ⟨r2, hr2, hid⟩
      · rcases List.mem_append.mp hsent with h1 | h1
        · exact Or.inl h1
        · refine Or.inr ⟨r, by simp, ?_⟩
          cases hsn : sendScheduleNotification env r .failed (some m) with
          | none => rw [hsn] at h1; cases h1
          | some n0 =>
            rw [hsn] at h1
            simp only [Option.toList_some, List.mem_singleton] at h1
            subst h1
            exact (sendScheduleNotification_fields hsn).1
      · exact Or.inr ⟨r2, by simp [hr2], hid⟩
    | ok u =>
      simp only [schedulerLoop, he] at hn
      rcases ih _ _ n hn with hsent | ⟨r2, hr2, hid⟩
      · rcases List.mem_append.mp hsent with h1 | h1
        · exact Or.inl h1
        · refine Or.inr ⟨r, by simp, ?_⟩
          cases hsn : sendScheduleNotification env r .completed none with
          | none => rw [hsn] at h1; cases h1
          | some n0 =>
            rw [hsn] at h1
            simp only [Option.toList_some, List.mem_singleton] at h1
            subst h1
            exact (sendScheduleNotification_fields hsn).1
      · exact Or.inr ⟨r2, by simp [hr2], hid⟩

/-! ## Claims about the session and fragment indices -/

/-- C8: binding a thread to a session is an idempotent last-writer-wins
upsert: after binding thread `T` to session `A` and then to session `B`,
exactly one ThreadSession row exists for `T` and resolving `T` yields `B`. -/
theorem bindSession_last_writer_wins (db : List (String × String))
    (T A B : String) :
    resolveSession (bindSession (bindSession db T A) T B) T = some B ∧
    ((bindSession (bindSession db T A) T B).filter
        (fun r => r.1 = T)).length = 1 := by
  constructor
  · simp [resolveSession, bindSession, List.find?_cons]
  · simp only [bindSession, List.filter_cons]
    have hnil : ∀ (l : List (String × String)),
        (l.filter (fun r => r.1 ≠ T)).filter (fun r => r.1 = T) = [] := by
      intro l
      rw [List.filter_filter]
      refine List.filter_eq_nil_iff.mpr ?_
      intro a _
      by_cases h : a.1 = T <;> simp [h]
    simp [hnil]

/-- C9: two sequential fragment recordings for the same `partId` with
different `messageId`s leave the row pointing at the second `messageId`, and
resolving by the first `messageId` afterwards returns not-found. -/
theorem recordFragment_last_write_wins (db : List PartMessage)
    (p m1 m2 t1 t2 : String) (hm : m1 ≠ m2)
    (hdb : ∀ r ∈ db, r.message_id ≠ m1) :
    (recordFragment (recordFragment db p m1 t1) p m2 t2).find?
        (fun r => r.part_id = p) = some ⟨p, m2, t2⟩ ∧
    resolveFragment (recordFragment (recordFragment db p m1 t1) p m2 t2) m1 =
      none := by
  constructor
  · simp [recordFragment, List.find?_cons]
  · have hnone : (recordFragment (recordFragment db p m1 t1) p m2 t2).find?
        (fun r => decide (r.message_id = m1)) = none := by
      rw [List.find?_eq_none]
      intro a ha
      simp only [recordFragment] at ha
      rcases List.mem_cons.mp ha with rfl | ha2
      · simp [Ne.symm hm]
      · have h2 := List.mem_filter.mp ha2
        rcases List.mem_cons.mp h2.1 with rfl | ha3
        · simp at h2
        · have hmem : a ∈ db := List.mem_of_mem_filter ha3
          simp [hdb a hmem]
    simp [resolveFragment, hnone]

/-- Witness for `recordFragment_last_write_wins` at a concrete input. -/
theorem recordFragment_last_write_wins_witness :
    ("m1" : String) ≠ "m2" ∧ (∀ r ∈ ([] : List PartMessage), r.message_id ≠ "m1") ∧
    ((recordFragment (recordFragment [] "p" "m1" "t1") "p" "m2" "t2").find?
        (fun r => r.part_id = "p") = some ⟨"p", "m2", "t2"⟩ ∧
      resolveFragment (recordFragment (recordFragment [] "p" "m1" "t1") "p" "m2" "t2")
        "m1" = none) :=
  ⟨by decide, by simp,
    recordFragment_last_write_wins [] "p" "m1" "m2" "t1" "t2" (by decide)
      (by simp)⟩

/-! ## Claims about the worktree state machine -/

/-- C2 counterexample: the store's worktree operations do not guard terminal
states.  After `createPendingWorktree` and `setWorktreeReady`, a plain
`setWorktreeError` moves the row `ready→error`, and a plain
`createPendingWorktree` moves a ready row back to `pending` — both without any
`deleteThreadWorktree`. -/
theorem worktree_terminal_transitions_unguarded :
    worktreeStatusOf
        (setWorktreeReady (createPendingWorktree [] "t" "n" "d") "t" "w") "t" =
      some .ready ∧
    worktreeStatusOf
        (setWorktreeError
          (setWorktreeReady (createPendingWorktree [] "t" "n" "d") "t" "w")
          "t" "boom") "t" = some .workErr ∧
    worktreeStatusOf
        (createPendingWorktree
          (setWorktreeReady (createPendingWorktree [] "t" "n" "d") "t" "w")
          "t" "n2" "d") "t" = some .pending := by
  decide

/-- C2 (amended): under the guarded usage discipline — `setWorktreeReady` and
`setWorktreeError` applied only to a `pending` row, `createPendingWorktree`
only for a thread with no row — a row in a terminal state (`ready` or
`error`) is never changed by any store operation except an explicit
`deleteThreadWorktree` of that thread.  The operations themselves do not
enforce the guards. -/
theorem worktree_terminal_stable_under_guarded_ops (db : List ThreadWorktree)
    (op : WtOp) (t : String) (hg : wtGuard db op)
    (ht : terminalWt (worktreeStatusOf db t)) :
    worktreeStatusOf (applyWtOp db op) t = worktreeStatusOf db t ∨
      op = WtOp.delete t := by
  cases op with
  | create t' n p =>
    left
    have hne : t' ≠ t := by
      intro he
      subst he
      rcases ht with h | h <;> rw [wtGuard] at hg <;> rw [hg] at h <;> cases h
    simp only [applyWtOp, worktreeStatusOf, getThreadWorktree,
      createPendingWorktree, List.find?_cons]
    have hhead : decide ((⟨t', n, none, p, .pending, none⟩ :
        ThreadWorktree).thread_id = t) = false := by simp [hne]
    rw [hhead]
    rw [find?_filter_compat]
    intro a ha
    have h2 : a.thread_id = t := of_decide_eq_true ha
    simp [h2, Ne.symm hne]
  | ready t' d =>
    left
    have hne : t' ≠ t := by
      intro he
      subst he
      rw [wtGuard] at hg
      rw [hg] at ht
      rcases ht with h | h <;> simp at h
    simp only [applyWtOp, worktreeStatusOf, getThreadWorktree, setWorktreeReady]
    rw [find?_map_comm]
    · cases hf : db.find? (fun r => decide (r.thread_id = t)) with
      | none => rfl
      | some a =>
        have hat : a.thread_id = t := by simpa using List.find?_some hf
        simp [hat, Ne.symm hne]
    · intro a
      by_cases h : a.thread_id = t' <;> simp [h]
  | fail t' m =>
    left
    have hne : t' ≠ t := by
      intro he
      subst he
      rw [wtGuard] at hg
      rw [hg] at ht
      rcases ht with h | h <;> simp at h
    simp only [applyWtOp, worktreeStatusOf, getThreadWorktree, setWorktreeError]
    rw [find?_map_comm]
    · cases hf : db.find? (fun r => decide (r.thread_id = t)) with
      | none => rfl
      | some a =>
        have hat : a.thread_id = t := by simpa using List.find?_some hf
        simp [hat, Ne.symm hne]
    · intro a
      by_cases h : a.thread_id = t' <;> simp [h]
  | delete t' =>
    by_cases he : t' = t
    · right
      rw [he]
    · left
      simp only [applyWtOp, worktreeStatusOf, getThreadWorktree,
        deleteThreadWorktree]
      rw [find?_filter_compat]
      intro a ha
      have h2 : a.thread_id = t := of_decide_eq_true ha
      simp [h2, Ne.symm he]

/-- Witness for `worktree_terminal_stable_under_guarded_ops` at a concrete
input. -/
theorem worktree_terminal_stable_witness :
    wtGuard (setWorktreeReady (createPendingWorktree [] "t" "n" "d") "t" "w")
        (WtOp.create "u" "n2" "d2") ∧
    terminalWt (worktreeStatusOf
      (setWorktreeReady (createPendingWorktree [] "t" "n" "d") "t" "w") "t") ∧
    (worktreeStatusOf
        (applyWtOp (setWorktreeReady (createPendingWorktree [] "t" "n" "d") "t" "w")
          (WtOp.create "u" "n2" "d2")) "t" =
      worktreeStatusOf
        (setWorktreeReady (createPendingWorktree [] "t" "n" "d") "t" "w") "t" ∨
      WtOp.create "u" "n2" "d2" = WtOp.delete "t") :=
  ⟨by unfold wtGuard; decide, by unfold terminalWt; decide,
    worktree_terminal_stable_under_guarded_ops _ _ _
      (by unfold wtGuard; decide) (by unfold terminalWt; decide)⟩

/-! ## Claims about schedule cancellation -/

/-- C7: cancelling a schedule whose status is not `pending` reports failure
to the requester and leaves the store — in particular the row's status,
prompt and scheduledAt — completely unchanged. -/
theorem cancel_nonpending_rejected (db : List ScheduleRow) (id : Nat)
    (user : String) (s : ScheduleRow) (h1 : getScheduleById db id = some s)
    (h2 : s.status ≠ .pending) :
    handleScheduleCancel db id user = (db, .alreadyResolved s.status) := by
  simp [handleScheduleCancel, h1, h2]

/-- Witness for `cancel_nonpending_rejected` at a concrete input. -/
theorem cancel_nonpending_rejected_witness :
    getScheduleById [⟨1, "c", none, "p", 0, .completed, "u", none⟩] 1 =
      some ⟨1, "c", none, "p", 0, .completed, "u", none⟩ ∧
    (⟨1, "c", none, "p", 0, .completed, "u", none⟩ : ScheduleRow).status ≠
      .pending ∧
    handleScheduleCancel [⟨1, "c", none, "p", 0, .completed, "u", none⟩] 1 "u2" =
      ([⟨1, "c", none, "p", 0, .completed, "u", none⟩],
        .alreadyResolved .completed) :=
  ⟨by decide, by decide,
    cancel_nonpending_rejected [⟨1, "c", none, "p", 0, .completed, "u", none⟩]
      1 "u2" ⟨1, "c", none, "p", 0, .completed, "u", none⟩ (by decide)
      (by decide)⟩

/-! ## Claims about forking -/

/-- C5: forking from a chat message with no recorded fragment fails with the
fragment-not-found reply and creates no thread and no session binding; and in
every fork interaction, if the fork call to the agent server fails, no thread
is created and the session table is untouched (the thread is created only
after a successful fork). -/
theorem fork_fragment_guard (env : ForkEnv) (sessions : List (String × String))
    (parts : List PartMessage) :
    (env.channelPresent = true → env.channelIsThread = true →
      env.projectDirectory.isSome = true →
      (resolveSession sessions env.threadId).isSome = true →
      resolveFragment parts env.targetMessageId = none →
      handleForkContextMenu env sessions parts =
        ⟨sessions, [], .fragmentNotFound⟩) ∧
    (∀ m, env.forkOutcome = .error m →
      (handleForkContextMenu env sessions parts).createdThreads = [] ∧
      (handleForkContextMenu env sessions parts).threadSessions = sessions) := by
  constructor
  · intro h1 h2 h3 h4 h5
    obtain ⟨d, hd⟩ := Option.isSome_iff_exists.mp h3
    obtain ⟨sid, hsid⟩ := Option.isSome_iff_exists.mp h4
    simp [handleForkContextMenu, h1, h2, hd, hsid, h5]
  · intro m hm
    unfold handleForkContextMenu
    repeat' split
    all_goals simp_all

/-- Witness for `fork_fragment_guard` at a concrete input: no `part_messages`
row exists for the clicked message, and the fork call would fail. -/
theorem fork_fragment_guard_witness :
    handleForkContextMenu sampleForkEnv [("th", "sess")] [] =
      ⟨[("th", "sess")], [], .fragmentNotFound⟩ ∧
    (handleForkContextMenu sampleForkEnv [("th", "sess")] []).createdThreads =
      [] ∧
    (handleForkContextMenu sampleForkEnv [("th", "sess")] []).threadSessions =
      [("th", "sess")] :=
  ⟨(fork_fragment_guard sampleForkEnv [("th", "sess")] []).1 rfl rfl rfl
      (by decide) rfl,
    ((fork_fragment_guard sampleForkEnv [("th", "sess")] []).2 "no agent" rfl).1,
    ((fork_fragment_guard sampleForkEnv [("th", "sess")] []).2 "no agent" rfl).2⟩

/-! ## Claims about the scheduler tick -/

/-- C1: a pending row whose `scheduledAt` has elapsed is transitioned by one
tick to exactly one of `completed`/`failed` (it is never left `pending`), a
subsequent tick leaves it unchanged, and the subsequent tick emits no hub
notification for it (it is not processed again). -/
theorem scheduler_tick_exactly_once (env : SchedulerEnv) (db : List ScheduleRow)
    (now now2 : Nat) (r : ScheduleRow) (hnd : (db.map (·.id)).Nodup)
    (hr : r ∈ db) (hp : r.status = .pending) (hdue : r.scheduled_at ≤ now) :
    getScheduleById (processSchedules env db now).1 r.id =
      some (tickOutcome env r) ∧
    ((tickOutcome env r).status = .completed ∨
      (tickOutcome env r).status = .failed) ∧
    getScheduleById
        (processSchedules env (processSchedules env db now).1 now2).1 r.id =
      some (tickOutcome env r) ∧
    ∀ n ∈ (processSchedules env (processSchedules env db now).1 now2).2,
      n.scheduleId ≠ r.id := by
  have hmem_due : r ∈ getPendingSchedules db now :=
    List.mem_filter.mpr ⟨hr, by simp [hp, hdue]⟩
  have hsub : List.Sublist (getPendingSchedules db now) db :=
    List.filter_sublist db
  have hnd_due : ((getPendingSchedules db now).map (·.id)).Nodup :=
    (hsub.map (·.id)).nodup hnd
  have hfind : getScheduleById db r.id = some r :=
    getScheduleById_of_mem_nodup hnd hr
  have h1 : getScheduleById (processSchedules env db now).1 r.id =
      some (tickOutcome env r) :=
    schedulerLoop_processes env _ r hnd_due hmem_due db [] hfind
  have hstat : (tickOutcome env r).status = .completed ∨
      (tickOutcome env r).status = .failed := by
    unfold tickOutcome
    cases env.exec r <;> simp
  have hids1 : (processSchedules env db now).1.map (·.id) = db.map (·.id) :=
    schedulerLoop_ids env _ db []
  have hnd1 : ((processSchedules env db now).1.map (·.id)).Nodup := by
    rw [hids1]; exact hnd
  have havoid : ∀ x ∈ getPendingSchedules (processSchedules env db now).1 now2,
      x.id ≠ r.id := by
    intro x hx he
    have hxdb : x ∈ (processSchedules env db now).1 := List.mem_of_mem_filter hx
    have hxp : x.status = .pending := by
      have h2 := (List.mem_filter.mp hx).2
      simp only [Bool.and_eq_true, decide_eq_true_eq] at h2
      exact h2.1
    have hfx : getScheduleById (processSchedules env db now).1 x.id = some x :=
      getScheduleById_of_mem_nodup hnd1 hxdb
    rw [he, h1] at hfx
    have heq := Option.some.inj hfx
    rw [← heq] at hxp
    rcases hstat with hs | hs <;> rw [hxp] at hs <;> exact absurd hs (by decide)
  refine ⟨h1, hstat, ?_, ?_⟩
  · exact (schedulerLoop_not_processed env _ _ [] r.id havoid).trans h1
  · intro n hn
    rcases schedulerLoop_notif_ids env _ _ [] n hn with h | ⟨r2, hr2, hid⟩
    · cases h
    · rw [hid]
      exact havoid r2 hr2

/-- Witness for `scheduler_tick_exactly_once` at a concrete input. -/
theorem scheduler_tick_exactly_once_witness :
    (([sampleRow] : List ScheduleRow).map (·.id)).Nodup ∧
    sampleRow ∈ [sampleRow] ∧ sampleRow.status = .pending ∧
    sampleRow.scheduled_at ≤ 5 ∧
    (getScheduleById (processSchedules sampleEnv [sampleRow] 5).1 sampleRow.id =
        some (tickOutcome sampleEnv sampleRow) ∧
      ((tickOutcome sampleEnv sampleRow).status = .completed ∨
        (tickOutcome sampleEnv sampleRow).status = .failed) ∧
      getScheduleById
          (processSchedules sampleEnv
            (processSchedules sampleEnv [sampleRow] 5).1 6).1 sampleRow.id =
        some (tickOutcome sampleEnv sampleRow) ∧
      ∀ n ∈ (processSchedules sampleEnv
          (processSchedules sampleEnv [sampleRow] 5).1 6).2,
        n.scheduleId ≠ sampleRow.id) :=
  ⟨by decide, by decide, by decide, by decide,
    scheduler_tick_exactly_once sampleEnv [sampleRow] 5 6 sampleRow (by decide)
      (by decide) (by decide) (by decide)⟩

/-- C6: a failure executing one due row is caught per row: the tick records
`status=failed` with the captured message on that row, reports it through the
hub notification when a hub channel is configured, and still processes every
other due row of the same tick according to that row's own execution
result. -/
theorem scheduler_row_failure_isolated (env : SchedulerEnv)
    (db : List ScheduleRow) (now : Nat) (r : ScheduleRow) (m a hubId : String)
    (hnd : (db.map (·.id)).Nodup) (hr : r ∈ db) (hp : r.status = .pending)
    (hdue : r.scheduled_at ≤ now) (hexec : env.exec r = .error m)
    (ha : env.appId = some a) (hh : env.hubChannelId a = some hubId)
    (hf : env.hubFetchOk hubId = true) :
    getScheduleById (processSchedules env db now).1 r.id =
      some { r with status := .failed, error_message := some m } ∧
    (∃ n ∈ (processSchedules env db now).2,
      n.scheduleId = r.id ∧ n.status = .failed ∧ n.errorMessage = some m) ∧
    (∀ r2 ∈ db, r2.status = .pending → r2.scheduled_at ≤ now →
      getScheduleById (processSchedules env db now).1 r2.id =
        some (tickOutcome env r2)) := by
  have hsub : List.Sublist (getPendingSchedules db now) db :=
    List.filter_sublist db
  have hnd_due : ((getPendingSchedules db now).map (·.id)).Nodup :=
    (hsub.map (·.id)).nodup hnd
  have hmem_due : r ∈ getPendingSchedules db now :=
    List.mem_filter.mpr ⟨hr, by simp [hp, hdue]⟩
  have hfind : getScheduleById db r.id = some r :=
    getScheduleById_of_mem_nodup hnd hr
  have houtcome : tickOutcome env r =
      { r with status := .failed, error_message := some m } := by
    simp [tickOutcome, hexec]
  refine ⟨?_, ?_, ?_⟩
  · rw [← houtcome]
    exact schedulerLoop_processes env _ r hnd_due hmem_due db [] hfind
  · have hsome : (sendScheduleNotification env r .failed (some m)).isSome =
        true := @sendScheduleNotification_isSome env r .failed (some m) a hubId
      ha hh hf
    obtain ⟨n, hn⟩ := Option.isSome_iff_exists.mp hsome
    have hmem : n ∈ (processSchedules env db now).2 :=
      schedulerLoop_notif_of_mem env _ r n hmem_due
        (by simp only [hexec]; exact hn) db []
    obtain ⟨f1, f2, f3⟩ := sendScheduleNotification_fields hn
    exact ⟨n, hmem, f1, f2, f3⟩
  · intro r2 hr2 hp2 hdue2
    have hmem2 : r2 ∈ getPendingSchedules db now :=
      List.mem_filter.mpr ⟨hr2, by simp [hp2, hdue2]⟩
    have hfind2 : getScheduleById db r2.id = some r2 :=
      getScheduleById_of_mem_nodup hnd hr2
    exact schedulerLoop_processes env _ r2 hnd_due hmem2 db [] hfind2

/-- Witness for `scheduler_row_failure_isolated` at a concrete input: one row
fails with "boom", the other completes in the same tick. -/
theorem scheduler_row_failure_isolated_witness :
    (([sampleRow, sampleRow2] : List ScheduleRow).map (·.id)).Nodup ∧
    sampleRow ∈ [sampleRow, sampleRow2] ∧ sampleRow.status = .pending ∧
    sampleRow.scheduled_at ≤ 5 ∧
    sampleMixedEnv.exec sampleRow = .error "boom" ∧
    sampleMixedEnv.appId = some "app" ∧
    sampleMixedEnv.hubChannelId "app" = some "hub" ∧
    sampleMixedEnv.hubFetchOk "hub" = true ∧
    (getScheduleById (processSchedules sampleMixedEnv [sampleRow, sampleRow2] 5).1
        sampleRow.id =
      some { sampleRow with status := .failed, error_message := some "boom" } ∧
    (∃ n ∈ (processSchedules sampleMixedEnv [sampleRow, sampleRow2] 5).2,
      n.scheduleId = sampleRow.id ∧ n.status = .failed ∧
        n.errorMessage = some "boom") ∧
    (∀ r2 ∈ ([sampleRow, sampleRow2] : List ScheduleRow),
      r2.status = .pending → r2.scheduled_at ≤ 5 →
      getScheduleById (processSchedules sampleMixedEnv [sampleRow, sampleRow2] 5).1
          r2.id = some (tickOutcome sampleMixedEnv r2))) :=
  ⟨by decide, by decide, by decide, by decide, rfl, rfl, rfl, rfl,
    scheduler_row_failure_isolated sampleMixedEnv [sampleRow, sampleRow2] 5
      sampleRow "boom" "app" "hub" (by decide) (by decide) (by decide)
      (by decide) rfl rfl rfl rfl⟩

/-! ## Claims about the credential vault -/

/-- C4 counterexample: the round trip through
`serializeEncrypted`/`deserializeEncrypted` fails for the empty plaintext:
its serialized form ends in an empty third segment, which
`deserializeEncrypted` rejects, so no decryption of the stored value can
return the plaintext. -/
theorem serialize_empty_plaintext_not_roundtrip :
    deserializeEncrypted (serializeEncrypted
      (encrypt [1, 2, 3, 4, 5, 6, 7, 8, 9, 10, 11, 12] [] [7])) = none := by
  decide

/-- C4 (amended): for every plaintext `s`, `decrypt (encrypt s k) k = s`; the
round trip through `serializeEncrypted`/`deserializeEncrypted` additionally
requires a non-empty plaintext (and iv).  Decryption with a different key, or
with a tampered authTag, ciphertext or iv field, fails with a
`DecryptionError` and never silently returns a wrong plaintext. -/
theorem encrypt_decrypt_roundtrip_and_auth (s : List Char)
    (key key' iv : List Nat) (hk : ∀ b ∈ key, b < 256)
    (hiv : ∀ b ∈ iv, b < 256) :
    decrypt (encrypt iv s key) key = Except.ok s ∧
    (s ≠ [] → iv ≠ [] →
      deserializeEncrypted (serializeEncrypted (encrypt iv s key)) =
        some (encrypt iv s key)) ∧
    (key' ≠ key →
      ∃ e, decrypt (encrypt iv s key) key' = Except.error e) ∧
    (∀ tagStr, decBytes tagStr ≠ gcmTag key iv (gcmCipher key iv (toBytes s)) →
      ∃ e, decrypt { encrypt iv s key with authTag := tagStr } key =
        Except.error e) ∧
    (∀ ctStr, decBytes ctStr ≠ gcmCipher key iv (toBytes s) →
      ∃ e, decrypt { encrypt iv s key with encrypted := ctStr } key =
        Except.error e) ∧
    (∀ ivStr, decBytes ivStr ≠ iv →
      ∃ e, decrypt { encrypt iv s key with iv := ivStr } key =
        Except.error e) := by
  obtain ⟨e1, e2, e3⟩ := encrypt_decodes s key iv hk hiv
  refine ⟨decrypt_encrypt s key iv hk hiv, ?_, ?_, ?_, ?_, ?_⟩
  · intro hs hivne
    exact (encrypt_serialize_roundtrip s key iv hk hiv hs hivne).2.1
  · intro hkk
    have hne : gcmTag key iv (gcmCipher key iv (toBytes s)) ≠
        gcmTag key' iv (gcmCipher key iv (toBytes s)) := fun he =>
      hkk ((gcmTag_inj he).1).symm
    refine ⟨⟨"Unsupported state or unable to authenticate data"⟩, ?_⟩
    simp only [decrypt, encrypt, e1, e2, e3]
    rw [if_neg hne]
  · intro tagStr htag
    refine ⟨⟨"Unsupported state or unable to authenticate data"⟩, ?_⟩
    simp only [decrypt, encrypt, e1, e2]
    rw [if_neg htag]
  · intro ctStr hct
    have hne : decBytes (encBytes (gcmTag key iv (gcmCipher key iv (toBytes s)))) ≠
        gcmTag key iv (decBytes ctStr) := by
      rw [e3]
      intro he
      exact hct ((gcmTag_inj he).2.2).symm
    refine ⟨⟨"Unsupported state or unable to authenticate data"⟩, ?_⟩
    simp only [decrypt, encrypt, e1]
    rw [if_neg hne]
  · intro ivStr hiv2
    have hne : decBytes (encBytes (gcmTag key iv (gcmCipher key iv (toBytes s)))) ≠
        gcmTag key (decBytes ivStr) (decBytes (encBytes (gcmCipher key iv (toBytes s)))) := by
      rw [e2, e3]
      intro he
      exact hiv2 ((gcmTag_inj he).2.1).symm
    refine ⟨⟨"Unsupported state or unable to authenticate data"⟩, ?_⟩
    simp only [decrypt, encrypt]
    rw [if_neg hne]

/-- Witness for `encrypt_decrypt_roundtrip_and_auth` at a concrete input. -/
theorem encrypt_decrypt_roundtrip_witness :
    (∀ b ∈ ([3, 4] : List Nat), b < 256) ∧
    (∀ b ∈ ([1, 2, 3, 4, 5, 6, 7, 8, 9, 10, 11, 12] : List Nat), b < 256) ∧
    decrypt (encrypt [1, 2, 3, 4, 5, 6, 7, 8, 9, 10, 11, 12] ['h', 'i'] [3, 4])
      [3, 4] = Except.ok ['h', 'i'] :=
  ⟨by decide, by decide,
    (encrypt_decrypt_roundtrip_and_auth ['h', 'i'] [3, 4] [5]
      [1, 2, 3, 4, 5, 6, 7, 8, 9, 10, 11, 12] (by decide) (by decide)).1⟩

/-- C10 counterexample: the serialized encryption of the empty plaintext is
not recognized by `isEncrypted` (its ciphertext segment is empty), so such a
stored value would be misclassified as legacy plaintext. -/
theorem isEncrypted_empty_plaintext_false :
    isEncrypted (serializeEncrypted
      (encrypt [1, 2, 3, 4, 5, 6, 7, 8, 9, 10, 11, 12] [] [7])) = false := by
  decide

/-- C10 (amended): for every non-empty plaintext `s` (and non-empty iv), the
serialized encryption is recognized by `isEncrypted`, `deserializeEncrypted`
reconstructs the original iv/authTag/ciphertext triple, and a stored value
the store has already encrypted is read back by `getBotToken` without any
re-encryption: the read returns the plaintext and leaves the store
unchanged. -/
theorem encrypted_value_not_reencrypted (s : List Char) (key iv iv2 : List Nat)
    (tokens : List (String × List Char)) (appId : String)
    (hk : ∀ b ∈ key, b < 256) (hiv : ∀ b ∈ iv, b < 256)
    (hs : s ≠ []) (hivne : iv ≠ [])
    (hfind : tokens.find? (fun r => r.1 = appId) =
      some (appId, serializeEncrypted (encrypt iv s key))) :
    isEncrypted (serializeEncrypted (encrypt iv s key)) = true ∧
    deserializeEncrypted (serializeEncrypted (encrypt iv s key)) =
      some (encrypt iv s key) ∧
    getBotToken key iv2 tokens appId = (some s, tokens) := by
  obtain ⟨h1, h2, h3⟩ := encrypt_serialize_roundtrip s key iv hk hiv hs hivne
  refine ⟨h1, h2, ?_⟩
  have hsne : serializeEncrypted (encrypt iv s key) ≠ [] := by
    intro he
    rw [he] at h1
    simp [isEncrypted] at h1
  simp [getBotToken, hfind, hsne, h1, h2, h3]

set_option maxRecDepth 8192 in
/-- Witness for `encrypted_value_not_reencrypted` at a concrete input. -/
theorem encrypted_value_not_reencrypted_witness :
    (∀ b ∈ ([3, 4] : List Nat), b < 256) ∧
    (∀ b ∈ ([1, 2, 3, 4, 5, 6, 7, 8, 9, 10, 11, 12] : List Nat), b < 256) ∧
    (['h', 'i'] : List Char) ≠ [] ∧
    ([1, 2, 3, 4, 5, 6, 7, 8, 9, 10, 11, 12] : List Nat) ≠ [] ∧
    getBotToken [3, 4] [9, 9, 9, 9, 9, 9, 9, 9, 9, 9, 9, 9]
        [("app", serializeEncrypted
          (encrypt [1, 2, 3, 4, 5, 6, 7, 8, 9, 10, 11, 12] ['h', 'i'] [3, 4]))]
        "app" =
      (some ['h', 'i'],
        [("app", serializeEncrypted
          (encrypt [1, 2, 3, 4, 5, 6, 7, 8, 9, 10, 11, 12] ['h', 'i'] [3, 4]))]) :=
  ⟨by decide, by decide, by decide, by decide,
    (encrypted_value_not_reencrypted ['h', 'i'] [3, 4]
      [1, 2, 3, 4, 5, 6, 7, 8, 9, 10, 11, 12] [9, 9, 9, 9, 9, 9, 9, 9, 9, 9, 9, 9]
      [("app", serializeEncrypted
        (encrypt [1, 2, 3, 4, 5, 6, 7, 8, 9, 10, 11, 12] ['h', 'i'] [3, 4]))]
      "app" (by decide) (by decide) (by decide) (by decide) (by decide)).2.2⟩

/-- C3 counterexample: `getBotApiKeys` reading a legacy plaintext API key
returns the plaintext but persists nothing: the row list is unchanged, so the
very next read still finds a value that fails the `isEncrypted` structural
check, contradicting the claim that every credential accessor persists a
structurally-encrypted replacement on first read. -/
theorem getBotApiKeys_plaintext_not_persisted :
    isEncrypted ['m', 'y', 'k', 'e', 'y'] = false ∧
    getBotApiKeys [7] [⟨"app", some ['m', 'y', 'k', 'e', 'y'], none⟩] "app" =
      (some (some ['m', 'y', 'k', 'e', 'y'], none),
        [⟨"app", some ['m', 'y', 'k', 'e', 'y'], none⟩]) := by
  decide

/-- C3 (amended): `getBotToken` performs the read-repair: reading a stored
value that fails the `isEncrypted` check returns the original plaintext and
persists its structurally-encrypted serialization, so the very next read
finds ciphertext and returns the same plaintext without further writes.
`getBotApiKeys` returns a legacy plaintext value unchanged but performs no
store write on read (its migration is deferred to the next
`setBotApiKeys`). -/
theorem credential_read_repair (key iv iv2 : List Nat)
    (tokens : List (String × List Char)) (appId : String) (v : List Char)
    (hk : ∀ b ∈ key, b < 256) (hiv : ∀ b ∈ iv, b < 256) (hivne : iv ≠ [])
    (hfind : tokens.find? (fun r => r.1 = appId) = some (appId, v))
    (hv : v ≠ []) (henc : isEncrypted v = false) :
    (getBotToken key iv tokens appId).1 = some v ∧
    (getBotToken key iv tokens appId).2.find? (fun r => r.1 = appId) =
      some (appId, serializeEncrypted (encrypt iv v key)) ∧
    isEncrypted (serializeEncrypted (encrypt iv v key)) = true ∧
    getBotToken key iv2 (getBotToken key iv tokens appId).2 appId =
      (some v, (getBotToken key iv tokens appId).2) ∧
    (∀ (rows : List BotApiKeysRow) (a : String),
      (getBotApiKeys key rows a).2 = rows) ∧
    (∀ w : List Char, w ≠ [] → isEncrypted w = false →
      decryptValue key (some w) = some w) := by
  obtain ⟨hIsEnc, hDeser, hDecr⟩ :=
    encrypt_serialize_roundtrip v key iv hk hiv hv hivne
  have h1 : getBotToken key iv tokens appId =
      (some v, tokens.map (fun r =>
        if r.1 = appId then (r.1, serializeEncrypted (encrypt iv v key))
        else r)) := by
    simp [getBotToken, hfind, hv, henc]
  have h2 : (tokens.map (fun r =>
      if r.1 = appId then (r.1, serializeEncrypted (encrypt iv v key))
      else r)).find? (fun r => r.1 = appId) =
      some (appId, serializeEncrypted (encrypt iv v key)) := by
    rw [find?_map_comm]
    · rw [hfind]
      simp
    · intro a
      by_cases h : a.1 = appId <;> simp [h]
  have hsne : serializeEncrypted (encrypt iv v key) ≠ [] := by
    intro he
    rw [he] at hIsEnc
    simp [isEncrypted] at hIsEnc
  have h3 : getBotToken key iv2 (getBotToken key iv tokens appId).2 appId =
      (some v, (getBotToken key iv tokens appId).2) := by
    rw [h1]
    simp [getBotToken, h2, hsne, hIsEnc, hDeser, hDecr]
  refine ⟨by rw [h1], by rw [h1]; exact h2, hIsEnc, h3, ?_, ?_⟩
  · intro rows a
    simp only [getBotApiKeys]
    split <;> rfl
  · intro w hw hwe
    simp [decryptValue, hw, hwe]

/-- Witness for `credential_read_repair` at a concrete input: a legacy
plaintext token is returned, re-encrypted in place, and read back. -/
theorem credential_read_repair_witness :
    (∀ b ∈ ([3, 4] : List Nat), b < 256) ∧
    (∀ b ∈ ([1, 2, 3, 4, 5, 6, 7, 8, 9, 10, 11, 12] : List Nat), b < 256) ∧
    ([1, 2, 3, 4, 5, 6, 7, 8, 9, 10, 11, 12] : List Nat) ≠ [] ∧
    ([("app", ['t', 'o', 'k'])] : List (String × List Char)).find?
      (fun r => r.1 = "app") = some ("app", ['t', 'o', 'k']) ∧
    (['t', 'o', 'k'] : List Char) ≠ [] ∧
    isEncrypted ['t', 'o', 'k'] = false ∧
    (getBotToken [3, 4] [1, 2, 3, 4, 5, 6, 7, 8, 9, 10, 11, 12]
      [("app", ['t', 'o', 'k'])] "app").1 = some ['t', 'o', 'k'] :=
  ⟨by decide, by decide, by decide, by decide, by decide, by decide,
    (credential_read_repair [3, 4] [1, 2, 3, 4, 5, 6, 7, 8, 9, 10, 11, 12]
      [9, 9, 9, 9, 9, 9, 9, 9, 9, 9, 9, 9] [("app", ['t', 'o', 'k'])] "app"
      ['t', 'o', 'k'] (by decide) (by decide) (by decide) (by decide)
      (by decide) (by decide)).1⟩

end Disunday
